import Mathlib

set_option maxHeartbeats 1000000

/-!
Shallow embedding of the two roster-provisioning scripts of this repository:
`create_github_repos.py` (Pipeline A: team roster, repo creation, push grants) and
`grant_read_access.py` (Pipeline B: per-repository access list, read grants).

Spreadsheet rows are modelled after the column-alias resolution of the scripts:
each row carries the resolved grouping cell and the resolved GITHUB ID cell, a
missing/NaN cell being `none`.  Remote platform calls are modelled by an
environment of predetermined outcomes, and the drivers return the chronological
list of platform calls they issue together with their aggregate result.
-/

/-- A resolved spreadsheet cell: `none` models a missing/NaN cell (`pd.isna`). -/
abbrev Cell := Option String

/-- ASCII whitespace for Python's whitespace class (regex token and `strip`). -/
def pySpace (c : Char) : Bool :=
  c == ' ' || c == '\t' || c == '\n' || c == '\r' || c == '\x0b' || c == '\x0c'

/-- Python `str.strip()`: drop leading and trailing whitespace. -/
def pyStrip (s : String) : String :=
  String.mk (((s.data.dropWhile pySpace).reverse.dropWhile pySpace).reverse)

/-- Python `str.lower()` on the ASCII range. -/
def pyLower (s : String) : String :=
  String.mk (s.data.map Char.toLower)

/-- Substring containment on character lists (Python's `in` test on strings). -/
def containsSeq (needle : List Char) : List Char → Bool
  | [] => needle.isEmpty
  | c :: rest => needle.isPrefixOf (c :: rest) || containsSeq needle rest

/-- Base-10 value of a run of digit characters (Python `int` on the regex group). -/
def digitsToNat (ds : List Char) : Nat :=
  ds.foldl (fun a c => a * 10 + (c.toNat - 48)) 0

/-- Attempt to match the regex pattern team-then-whitespace-then-digits
(IGNORECASE) anchored at the head of `cs`, yielding the digit group's value. -/
def matchTeamAt : List Char → Option Nat
  | c1 :: c2 :: c3 :: c4 :: rest =>
    if c1.toLower == 't' && c2.toLower == 'e' && c3.toLower == 'a' && c4.toLower == 'm' then
      let ds := (rest.dropWhile pySpace).takeWhile Char.isDigit
      if ds.isEmpty then none else some (digitsToNat ds)
    else none
  | _ => none

/-- Leftmost match of the team-number pattern over the characters (`re.search`). -/
def findTeamNum : List Char → Option Nat
  | [] => none
  | c :: rest =>
    match matchTeamAt (c :: rest) with
    | some n => some n
    | none => findTeamNum rest

/-- Pipeline A team-cell interpretation: a present cell is stripped; when its
lowering contains "team" the regex search runs, yielding the team number. -/
def extractTeamA (cell : Cell) : Option Nat :=
  match cell with
  | none => none
  | some t =>
    let ts := pyStrip t
    if containsSeq ("team".data) ((pyLower ts).data) then findTeamNum ts.data
    else none

/-- Carry-forward update of `current_team` by a row's team cell: an extracted
number replaces it, anything else leaves it unchanged. -/
def updateTeamA (cur : Option Nat) (cell : Cell) : Option Nat :=
  match extractTeamA cell with
  | some n => some n
  | none => cur

/-- Cleaning applied to an accepted member id: remove every `@` and every space
character (the chained `replace` calls of both scripts). -/
def normalizeId (s : String) : String :=
  String.mk (s.data.filter (fun c => !(c == '@' || c == ' ')))

/-- Member-cell interpretation shared by both scripts: a present cell is
stripped and accepted when nonempty and not the literal "nan"; the cleaned id
results. -/
def memberCell (cell : Cell) : Option String :=
  match cell with
  | none => none
  | some g =>
    let s := pyStrip g
    if s != "" && pyLower s != "nan" then some (normalizeId s) else none

/-- Pipeline A member step: the member joins `current_team`'s list only when
that value is truthy in Python, that is set and nonzero. -/
def memberAddA (cur : Option Nat) (cell : Cell) : Option (Nat × String) :=
  match cur with
  | none => none
  | some n => if n == 0 then none else (memberCell cell).map (fun id => (n, id))

/-- First-match lookup in an insertion-ordered association list (dict model). -/
def lookupMap {κ ν : Type} [DecidableEq κ] : List (κ × ν) → κ → Option ν
  | [], _ => none
  | (a, b) :: t, g => if a = g then some b else lookupMap t g

/-- Pipeline A dict update: create the team's list when absent, then append the
member unconditionally, keeping insertion order. -/
def appendMember (m : List (Nat × List String)) (n : Nat) (id : String) :
    List (Nat × List String) :=
  if (lookupMap m n).isSome then
    m.map (fun p => if p.1 = n then (p.1, p.2 ++ [id]) else p)
  else m ++ [(n, [id])]

structure RowA where
  team : Cell
  githubId : Cell
  deriving DecidableEq

structure StateA where
  currentTeam : Option Nat
  teams : List (Nat × List String)
  deriving DecidableEq

/-- One row of the Pipeline A scan. -/
def stepA (st : StateA) (r : RowA) : StateA :=
  let cur := updateTeamA st.currentTeam r.team
  match memberAddA cur r.githubId with
  | some (n, id) => { currentTeam := cur, teams := appendMember st.teams n id }
  | none => { currentTeam := cur, teams := st.teams }

def initA : StateA := { currentTeam := none, teams := [] }

/-- Pipeline A parser `read_teams_from_excel`, over rows already resolved to
their team and GITHUB ID candidate cells. -/
def read_teams_from_excel (rows : List RowA) : List (Nat × List String) :=
  (rows.foldl stepA initA).teams

/-- Pipeline B repo-cell interpretation: stripped, nonempty, not "nan". -/
def repoCellValid (cell : Cell) : Option String :=
  match cell with
  | none => none
  | some rp =>
    let s := pyStrip rp
    if s != "" && pyLower s != "nan" then some s else none

/-- Register a repository key with an empty list when absent (insertion order). -/
def registerRepo (m : List (String × List String)) (s : String) :
    List (String × List String) :=
  if (lookupMap m s).isSome then m else m ++ [(s, [])]

/-- Append a member to a repository's list unless already present there. -/
def addMemberB (m : List (String × List String)) (c : String) (id : String) :
    List (String × List String) :=
  m.map (fun p => if p.1 = c then (p.1, if p.2.contains id then p.2 else p.2 ++ [id]) else p)

/-- Pipeline B member step: requires a truthy `current_repo` (set, nonempty). -/
def memberAddB (cur : Option String) (cell : Cell) : Option (String × String) :=
  match cur with
  | none => none
  | some c => if c == "" then none else (memberCell cell).map (fun id => (c, id))

/-- The `current_repo` value after a row's repository cell is examined. -/
def curAfterRepo (cur : Option String) (cell : Cell) : Option String :=
  match repoCellValid cell with
  | some s => some s
  | none => cur

/-- The access map after a row's repository cell is examined. -/
def mapAfterRepo (m : List (String × List String)) (cell : Cell) :
    List (String × List String) :=
  match repoCellValid cell with
  | some s => registerRepo m s
  | none => m

structure RowB where
  repo : Cell
  githubId : Cell
  deriving DecidableEq

structure StateB where
  currentRepo : Option String
  repoAccess : List (String × List String)
  deriving DecidableEq

/-- One row of the Pipeline B scan. -/
def stepB (st : StateB) (r : RowB) : StateB :=
  let cur := curAfterRepo st.currentRepo r.repo
  let m1 := mapAfterRepo st.repoAccess r.repo
  match memberAddB cur r.githubId with
  | some (c, id) => { currentRepo := cur, repoAccess := addMemberB m1 c id }
  | none => { currentRepo := cur, repoAccess := m1 }

def initB : StateB := { currentRepo := none, repoAccess := [] }

/-- Pipeline B parser `read_access_list_from_excel`. -/
def read_access_list_from_excel (rows : List RowB) : List (String × List String) :=
  (rows.foldl stepB initB).repoAccess

/-- Ghost instrumentation: the chronological (team, member) append events the
Pipeline A scan performs from a given state. -/
def eventsA : StateA → List RowA → List (Nat × String)
  | _, [] => []
  | st, r :: rs =>
    (memberAddA (updateTeamA st.currentTeam r.team) r.githubId).toList ++ eventsA (stepA st r) rs

/-- Ghost instrumentation: the chronological (repo, member) append events the
Pipeline B scan performs from a given state. -/
def eventsB : StateB → List RowB → List (String × String)
  | _, [] => []
  | st, r :: rs =>
    (memberAddB (curAfterRepo st.currentRepo r.repo) r.githubId).toList ++ eventsB (stepB st r) rs

/-- Occurrences of member `x` in group `g`'s list of an association map. -/
def countIn (m : List (Nat × List String)) (g : Nat) (x : String) : Nat :=
  ((lookupMap m g).getD []).count x

/-- A platform exception as the scripts can observe it: the HTTP status they
branch on and the opaque text of its rendering that they interpolate. -/
structure GHError where
  status : Nat
  rendered : String
  deriving DecidableEq

inductive EventA where
  | createCall (name : String)
  | fetchCall (name : String)
  | addCall (repo user perm : String)
  deriving DecidableEq

/-- The `create_repository` routine: attempt the create; on a 422 conflict fetch
the existing repository (a fetch failure escapes as the uncaught exception
would); on any other platform failure report and yield no handle. -/
def create_repository (cr fr : Except GHError Unit) (name : String) :
    List EventA × Except GHError (Option String) :=
  match cr with
  | .ok _ => ([.createCall name], .ok (some name))
  | .error e =>
    if e.status == 422 then
      match fr with
      | .ok _ => ([.createCall name, .fetchCall name], .ok (some name))
      | .error e2 => ([.createCall name, .fetchCall name], .error e2)
    else ([.createCall name], .ok none)

structure EnvA where
  create : String → Except GHError Unit
  fetch : String → Except GHError Unit
  addOutcome : String → String → Except GHError Unit

/-- The `add_collaborator` routine: one platform call, success as a Bool. -/
def add_collaborator (env : EnvA) (repo user : String) : List EventA × Bool :=
  ([.addCall repo user "push"],
   match env.addOutcome repo user with | .ok _ => true | .error _ => false)

/-- The per-repository member loop of Pipeline A's `main` (results ignored). -/
def grantAllA (env : EnvA) (repo : String) (members : List String) : List EventA :=
  members.foldl (fun acc memberId => acc ++ (add_collaborator env repo memberId).1) []

def clientName (n : Nat) : String := "Client" ++ toString n

def designerName (n : Nat) : String := "Designer" ++ toString n

/-- One Pipeline A team: create the Client repo, grant push to every member when
a handle came back, then the same for the Designer repo. -/
def processTeamA (env : EnvA) (n : Nat) (members : List String) :
    List EventA × Except GHError Unit :=
  let c := create_repository (env.create (clientName n)) (env.fetch (clientName n)) (clientName n)
  match c.2 with
  | .error e => (c.1, .error e)
  | .ok h1 =>
    let g1 := match h1 with | some repo => grantAllA env repo members | none => []
    let d := create_repository (env.create (designerName n)) (env.fetch (designerName n)) (designerName n)
    match d.2 with
    | .error e => (c.1 ++ g1 ++ d.1, .error e)
    | .ok h2 =>
      let g2 := match h2 with | some repo => grantAllA env repo members | none => []
      (c.1 ++ g1 ++ d.1 ++ g2, .ok ())

/-- Pipeline A driver loop: teams absent from the roster are skipped, an escaped
exception aborts the remaining run. -/
def runTeamsA (env : EnvA) (teams : List (Nat × List String)) :
    List Nat → List EventA × Except GHError Unit
  | [] => ([], .ok ())
  | n :: rest =>
    match lookupMap teams n with
    | none => runTeamsA env teams rest
    | some members =>
      let p := processTeamA env n members
      match p.2 with
      | .error e => (p.1, .error e)
      | .ok _ =>
        let q := runTeamsA env teams rest
        (p.1 ++ q.1, q.2)

/-- Pipeline A driver over configured teams 1..numTeams. -/
def mainA (env : EnvA) (teams : List (Nat × List String)) (numTeams : Nat) :
    List EventA × Except GHError Unit :=
  runTeamsA env teams (List.range' 1 numTeams)

/-- The single failure message of `add_collaborator` (Pipeline A). -/
def addFailMsgA (user : String) (e : GHError) : String :=
  "  ✗ Error adding " ++ user ++ ": " ++ e.rendered

/-- The failure messages of `grant_read_access` (Pipeline B): a 404 gets its own
dedicated text, anything else the generic one. -/
def grantFailMsgB (user : String) (e : GHError) : String :=
  if e.status == 404 then "  ✗ User " ++ user ++ " not found on GitHub"
  else "  ✗ Error granting access to " ++ user ++ ": " ++ e.rendered

structure EnvB where
  getRepo : String → Except GHError Unit
  getPerm : String → String → Except GHError String
  addOutcome : String → String → Except GHError Unit

inductive EventB where
  | getRepoCall (name : String)
  | permQuery (repo user : String)
  | addCall (repo user perm : String)
  deriving DecidableEq

/-- The `grant_read_access` routine: query the current permission (a failing
query is treated as no access); skip when it is already admin, write or read;
otherwise issue one add with pull permission, its success as the Bool. -/
def grant_read_access (env : EnvB) (repo user : String) : List EventB × Bool :=
  match env.getPerm repo user with
  | .ok p =>
    if p == "admin" || p == "write" || p == "read" then ([.permQuery repo user], true)
    else ([.permQuery repo user, .addCall repo user "pull"],
          match env.addOutcome repo user with | .ok _ => true | .error _ => false)
  | .error _ =>
    ([.permQuery repo user, .addCall repo user "pull"],
     match env.addOutcome repo user with | .ok _ => true | .error _ => false)

structure SummaryB where
  total : Nat
  successful : Nat
  failedRepos : List String
  deriving DecidableEq

/-- Pipeline B repository loop: an unfetchable repository joins the failed list
and is skipped; otherwise every member is processed and the repository counts as
successful exactly when every grant returned true. -/
def runReposB (env : EnvB) : List (String × List String) → List EventB × Nat × List String
  | [] => ([], 0, [])
  | (rn, users) :: rest =>
    match env.getRepo rn with
    | .error _ =>
      let q := runReposB env rest
      (EventB.getRepoCall rn :: q.1, q.2.1, rn :: q.2.2)
    | .ok _ =>
      let results := users.map (fun u => grant_read_access env rn u)
      let evs := results.foldl (fun acc r => acc ++ r.1) []
      let successCount := (results.filter (fun r => r.2)).length
      let q := runReposB env rest
      (EventB.getRepoCall rn :: (evs ++ q.1),
       (if successCount = users.length then 1 else 0) + q.2.1,
       q.2.2)

/-- Pipeline B driver: process every parsed repository, then the summary. -/
def mainB (env : EnvB) (access : List (String × List String)) : List EventB × SummaryB :=
  let q := runReposB env access
  (q.1, { total := access.length, successful := q.2.1, failedRepos := q.2.2 })

/-- The repository name of a create call, used to project create events. -/
def createNameOf (ev : EventA) : Option String :=
  match ev with
  | .createCall n => some n
  | _ => none

/-- Whether an EventA is a collaborator add with push permission. -/
def isPushAdd (ev : EventA) : Bool :=
  match ev with
  | .addCall _ _ p => p == "push"
  | _ => false

/-- Whether an EventB is a collaborator add call. -/
def isAddEvent (ev : EventB) : Bool :=
  match ev with
  | .addCall _ _ _ => true
  | _ => false

/-- Concrete Pipeline B environment in which the repository cannot be fetched
but every member's grant evaluation would report success. -/
def envUnfetchable : EnvB :=
  { getRepo := fun _ => .error { status := 404, rendered := "Not Found" },
    getPerm := fun _ _ => .ok "read",
    addOutcome := fun _ _ => .ok () }

/-- Concrete Pipeline B environment: repositories fetch fine, nobody has any
existing access, every add succeeds. -/
def envSkipless : EnvB :=
  { getRepo := fun _ => .ok (),
    getPerm := fun _ _ => .ok "none",
    addOutcome := fun _ _ => .ok () }

/-- Concrete Pipeline A environment in which every platform call succeeds. -/
def envAllOk : EnvA :=
  { create := fun _ => .ok (),
    fetch := fun _ => .ok (),
    addOutcome := fun _ _ => .ok () }

/-- Concrete Pipeline A environment in which every creation fails with a
non-conflict server error. -/
def envCreateFails : EnvA :=
  { create := fun _ => .error { status := 500, rendered := "boom" },
    fetch := fun _ => .ok (),
    addOutcome := fun _ _ => .ok () }

/-- Every list stored in a Pipeline B access map is duplicate-free. -/
def NodupMapB (m : List (String × List String)) : Prop :=
  ∀ g l, lookupMap m g = some l → l.Nodup

/-- Pipeline B scan invariant: the current repository is always registered. -/
def InvB (st : StateB) : Prop :=
  ∀ c, st.currentRepo = some c → (lookupMap st.repoAccess c).isSome = true

theorem lookupMap_append {κ ν : Type} [DecidableEq κ] (m1 m2 : List (κ × ν)) (g : κ) :
    lookupMap (m1 ++ m2) g =
      match lookupMap m1 g with
      | some v => some v
      | none => lookupMap m2 g := by
  induction m1 with
  | nil => simp [lookupMap]
  | cons p t ih =>
    obtain ⟨a, b⟩ := p
    by_cases h : a = g <;> simp [lookupMap, h, ih]

theorem lookupMap_mapUpdate {κ ν : Type} [DecidableEq κ] (f : ν → ν)
    (m : List (κ × ν)) (n g : κ) :
    lookupMap (m.map (fun p => if p.1 = n then (p.1, f p.2) else p)) g =
      if g = n then (lookupMap m g).map f else lookupMap m g := by
  have hfun : (fun p : κ × ν => if p.1 = n then (p.1, f p.2) else p)
      = (fun p : κ × ν => (p.1, if p.1 = n then f p.2 else p.2)) := by
    funext p
    by_cases h : p.1 = n <;> simp [h]
  rw [hfun]
  induction m with
  | nil => by_cases h : g = n <;> simp [lookupMap, h]
  | cons p t ih =>
    obtain ⟨a, b⟩ := p
    simp only [List.map_cons, lookupMap]
    by_cases h2 : a = g
    · subst h2
      by_cases h1 : a = n <;> simp [h1]
    · simp [h2, ih]

theorem lookupMap_appendMember (m : List (Nat × List String)) (n : Nat) (id : String) (g : Nat) :
    lookupMap (appendMember m n id) g =
      if g = n then some (((lookupMap m n).getD []) ++ [id]) else lookupMap m g := by
  unfold appendMember
  by_cases hs : (lookupMap m n).isSome = true
  · rw [if_pos hs, lookupMap_mapUpdate (fun l => l ++ [id]) m n g]
    by_cases hg : g = n
    · subst hg
      obtain ⟨l, hl⟩ := Option.isSome_iff_exists.mp hs
      simp [hl]
    · simp [hg]
  · rw [if_neg hs, lookupMap_append]
    have hn : lookupMap m n = none := Option.not_isSome_iff_eq_none.mp hs
    by_cases hg : g = n
    · subst hg
      simp [hn, lookupMap]
    · cases hl : lookupMap m g <;> simp [hg, hl, lookupMap, Ne.symm hg]

theorem lookupMap_registerRepo (m : List (String × List String)) (s g : String) :
    lookupMap (registerRepo m s) g =
      match lookupMap m g with
      | some l => some l
      | none => if g = s then some [] else none := by
  unfold registerRepo
  by_cases hs : (lookupMap m s).isSome = true
  · rw [if_pos hs]
    cases hl : lookupMap m g with
    | some l => simp
    | none =>
      by_cases hg : g = s
      · subst hg
        rw [hl] at hs
        simp at hs
      · simp [hg]
  · rw [if_neg hs, lookupMap_append]
    have hn : lookupMap m s = none := Option.not_isSome_iff_eq_none.mp hs
    cases hl : lookupMap m g with
    | some l => simp
    | none =>
      by_cases hg : g = s
      · subst hg
        simp [lookupMap]
      · simp [lookupMap, hg, Ne.symm hg]

theorem lookupMap_addMemberB (m : List (String × List String)) (c id : String) (g : String) :
    lookupMap (addMemberB m c id) g =
      if g = c then (lookupMap m g).map (fun l => if l.contains id then l else l ++ [id])
      else lookupMap m g := by
  unfold addMemberB
  rw [lookupMap_mapUpdate (fun l => if l.contains id then l else l ++ [id]) m c g]

theorem memberAddA_inv {cur : Option Nat} {cell : Cell} {n : Nat} {id : String}
    (h : memberAddA cur cell = some (n, id)) :
    cur = some n ∧ n ≠ 0 ∧ memberCell cell = some id := by
  cases cur with
  | none => simp [memberAddA] at h
  | some k =>
    by_cases hk : k == 0
    · simp [memberAddA, hk] at h
    · cases hm : memberCell cell with
      | none => simp [memberAddA, hk, hm] at h
      | some v =>
        simp [memberAddA, hk, hm] at h
        refine ⟨?_, ?_, ?_⟩ <;> simp_all

theorem memberAddB_inv {cur : Option String} {cell : Cell} {c id : String}
    (h : memberAddB cur cell = some (c, id)) :
    cur = some c ∧ c ≠ "" ∧ memberCell cell = some id := by
  cases cur with
  | none => simp [memberAddB] at h
  | some k =>
    by_cases hk : k == ""
    · simp [memberAddB, hk] at h
    · cases hm : memberCell cell with
      | none => simp [memberAddB, hk, hm] at h
      | some v =>
        simp [memberAddB, hk, hm] at h
        refine ⟨?_, ?_, ?_⟩ <;> simp_all

theorem countIn_stepA (st : StateA) (r : RowA) (g : Nat) (x : String) :
    countIn (stepA st r).teams g x =
      countIn st.teams g x +
        ((memberAddA (updateTeamA st.currentTeam r.team) r.githubId).toList.count (g, x)) := by
  cases h : memberAddA (updateTeamA st.currentTeam r.team) r.githubId with
  | none => simp [stepA, h, countIn]
  | some p =>
    obtain ⟨n, id⟩ := p
    simp only [stepA, h, Option.toList_some, List.count_cons, List.count_nil]
    unfold countIn
    rw [lookupMap_appendMember]
    by_cases hg : g = n
    · subst hg
      cases hl : lookupMap st.teams g with
      | none => simp [List.count_cons, Prod.ext_iff]
      | some l => simp [List.count_append, List.count_cons, Prod.ext_iff]
    · simp [hg, Prod.ext_iff]
      exact fun h1 => absurd h1.symm hg

theorem countIn_foldA (rows : List RowA) (st : StateA) (g : Nat) (x : String) :
    countIn (rows.foldl stepA st).teams g x =
      countIn st.teams g x + (eventsA st rows).count (g, x) := by
  induction rows generalizing st with
  | nil => simp [eventsA]
  | cons r rs ih =>
    simp only [List.foldl_cons, eventsA, List.count_append]
    rw [ih, countIn_stepA]
    omega

theorem memA_prov (rows : List RowA) (st : StateA) (g : Nat) (l : List String) (x : String)
    (h1 : lookupMap (rows.foldl stepA st).teams g = some l) (h2 : x ∈ l) :
    (∃ l0, lookupMap st.teams g = some l0 ∧ x ∈ l0) ∨
      ∃ r ∈ rows, memberCell r.githubId = some x := by
  induction rows generalizing st l with
  | nil =>
    left
    exact ⟨l, by simpa using h1, h2⟩
  | cons r rs ih =>
    simp only [List.foldl_cons] at h1
    rcases ih (stepA st r) l h1 h2 with ⟨l0, hl0, hx⟩ | ⟨r2, hr2, hm⟩
    · cases hma : memberAddA (updateTeamA st.currentTeam r.team) r.githubId with
      | none =>
        left
        refine ⟨l0, ?_, hx⟩
        simpa [stepA, hma] using hl0
      | some p =>
        obtain ⟨n, id⟩ := p
        have hl1 : lookupMap (appendMember st.teams n id) g = some l0 := by
          simpa [stepA, hma] using hl0
        rw [lookupMap_appendMember] at hl1
        by_cases hg : g = n
        · subst hg
          rw [if_pos rfl] at hl1
          have hl0eq : ((lookupMap st.teams g).getD []) ++ [id] = l0 := by
            simpa using hl1
          rw [← hl0eq] at hx
          rcases List.mem_append.mp hx with hx1 | hx2
          · cases hlk : lookupMap st.teams g with
            | none =>
              rw [hlk] at hx1
              simp at hx1
            | some lk =>
              left
              rw [hlk] at hx1
              exact ⟨lk, rfl, by simpa using hx1⟩
          · have hxid : x = id := by simpa using hx2
            right
            subst hxid
            exact ⟨r, List.mem_cons_self r rs, (memberAddA_inv hma).2.2⟩
        · rw [if_neg hg] at hl1
          left
          exact ⟨l0, hl1, hx⟩
    · right
      exact ⟨r2, List.mem_cons_of_mem r hr2, hm⟩

theorem mapAfterRepo_prov (m : List (String × List String)) (cell : Cell) (g : String)
    (l : List String) (x : String)
    (h1 : lookupMap (mapAfterRepo m cell) g = some l) (h2 : x ∈ l) :
    ∃ l0, lookupMap m g = some l0 ∧ x ∈ l0 := by
  cases hrv : repoCellValid cell with
  | none => exact ⟨l, by simpa [mapAfterRepo, hrv] using h1, h2⟩
  | some s =>
    have h3 : lookupMap (registerRepo m s) g = some l := by
      simpa [mapAfterRepo, hrv] using h1
    rw [lookupMap_registerRepo] at h3
    cases hlk : lookupMap m g with
    | some lk =>
      rw [hlk] at h3
      simp at h3
      exact ⟨lk, rfl, h3 ▸ h2⟩
    | none =>
      rw [hlk] at h3
      by_cases hg : g = s
      · simp [hg] at h3
        subst h3
        simp at h2
      · simp [hg] at h3

theorem memB_prov (rows : List RowB) (st : StateB) (g : String) (l : List String) (x : String)
    (h1 : lookupMap (rows.foldl stepB st).repoAccess g = some l) (h2 : x ∈ l) :
    (∃ l0, lookupMap st.repoAccess g = some l0 ∧ x ∈ l0) ∨
      ∃ r ∈ rows, memberCell r.githubId = some x := by
  induction rows generalizing st l with
  | nil =>
    left
    exact ⟨l, by simpa using h1, h2⟩
  | cons r rs ih =>
    simp only [List.foldl_cons] at h1
    rcases ih (stepB st r) l h1 h2 with ⟨l0, hl0, hx⟩ | ⟨r2, hr2, hm⟩
    · cases hmb : memberAddB (curAfterRepo st.currentRepo r.repo) r.githubId with
      | none =>
        have hl1 : lookupMap (mapAfterRepo st.repoAccess r.repo) g = some l0 := by
          simpa [stepB, hmb] using hl0
        left
        exact mapAfterRepo_prov st.repoAccess r.repo g l0 x hl1 hx
      | some p =>
        obtain ⟨c, id⟩ := p
        have hl1 : lookupMap (addMemberB (mapAfterRepo st.repoAccess r.repo) c id) g = some l0 := by
          simpa [stepB, hmb] using hl0
        rw [lookupMap_addMemberB] at hl1
        by_cases hg : g = c
        · rw [if_pos hg] at hl1
          cases hlm : lookupMap (mapAfterRepo st.repoAccess r.repo) g with
          | none =>
            rw [hlm] at hl1
            simp at hl1
          | some lm =>
            rw [hlm] at hl1
            simp at hl1
            rw [← hl1] at hx
            by_cases hc : id ∈ lm
            · rw [if_pos hc] at hx
              left
              exact mapAfterRepo_prov st.repoAccess r.repo g lm x hlm hx
            · rw [if_neg hc] at hx
              rcases List.mem_append.mp hx with hx1 | hx2
              · left
                exact mapAfterRepo_prov st.repoAccess r.repo g lm x hlm hx1
              · have hxid : x = id := by simpa using hx2
                right
                subst hxid
                exact ⟨r, List.mem_cons_self r rs, (memberAddB_inv hmb).2.2⟩
        · rw [if_neg hg] at hl1
          left
          exact mapAfterRepo_prov st.repoAccess r.repo g l0 x hl1 hx
    · right
      exact ⟨r2, List.mem_cons_of_mem r hr2, hm⟩

theorem foldA_no_group (rows : List RowA) (h : ∀ r ∈ rows, extractTeamA r.team = none) :
    rows.foldl stepA initA = initA := by
  induction rows with
  | nil => rfl
  | cons r rs ih =>
    have h1 : extractTeamA r.team = none := h r (List.mem_cons_self r rs)
    have hst : stepA initA r = initA := by
      simp [stepA, updateTeamA, h1, memberAddA, initA]
    rw [List.foldl_cons, hst, ih (fun r2 hr2 => h r2 (List.mem_cons_of_mem r hr2))]

theorem foldB_no_group (rows : List RowB) (h : ∀ r ∈ rows, repoCellValid r.repo = none) :
    rows.foldl stepB initB = initB := by
  induction rows with
  | nil => rfl
  | cons r rs ih =>
    have h1 : repoCellValid r.repo = none := h r (List.mem_cons_self r rs)
    have hst : stepB initB r = initB := by
      simp [stepB, curAfterRepo, mapAfterRepo, h1, memberAddB, initB]
    rw [List.foldl_cons, hst, ih (fun r2 hr2 => h r2 (List.mem_cons_of_mem r hr2))]

theorem isSome_lookup_mapAfterRepo (m : List (String × List String)) (cell : Cell) (g : String)
    (h : (lookupMap m g).isSome = true) :
    (lookupMap (mapAfterRepo m cell) g).isSome = true := by
  cases hrv : repoCellValid cell with
  | none => simpa [mapAfterRepo, hrv] using h
  | some s =>
    simp only [mapAfterRepo, hrv]
    rw [lookupMap_registerRepo]
    obtain ⟨l, hl⟩ := Option.isSome_iff_exists.mp h
    rw [hl]
    simp

theorem isSome_lookup_registered (m : List (String × List String)) (s : String) :
    (lookupMap (registerRepo m s) s).isSome = true := by
  rw [lookupMap_registerRepo]
  cases hl : lookupMap m s <;> simp

theorem isSome_lookup_addMemberB (m : List (String × List String)) (c id g : String) :
    (lookupMap (addMemberB m c id) g).isSome = (lookupMap m g).isSome := by
  rw [lookupMap_addMemberB]
  by_cases hg : g = c
  · rw [if_pos hg]
    cases lookupMap m g <;> simp
  · rw [if_neg hg]

theorem invB_cur_lookup (st : StateB) (r : RowB) (c : String) (h : InvB st)
    (hc2 : curAfterRepo st.currentRepo r.repo = some c) :
    (lookupMap (mapAfterRepo st.repoAccess r.repo) c).isSome = true := by
  cases hrv : repoCellValid r.repo with
  | none =>
    have hcur : st.currentRepo = some c := by simpa [curAfterRepo, hrv] using hc2
    exact isSome_lookup_mapAfterRepo _ _ _ (h c hcur)
  | some s =>
    have hsc : s = c := by simpa [curAfterRepo, hrv] using hc2
    subst hsc
    simp [mapAfterRepo, hrv, isSome_lookup_registered]

theorem invB_step (st : StateB) (r : RowB) (h : InvB st) : InvB (stepB st r) := by
  intro c hc
  cases hmb : memberAddB (curAfterRepo st.currentRepo r.repo) r.githubId with
  | none =>
    have hc2 : curAfterRepo st.currentRepo r.repo = some c := by
      simpa [stepB, hmb] using hc
    have hmap : (stepB st r).repoAccess = mapAfterRepo st.repoAccess r.repo := by
      simp [stepB, hmb]
    rw [hmap]
    exact invB_cur_lookup st r c h hc2
  | some p =>
    obtain ⟨c2, id⟩ := p
    have hc2 : curAfterRepo st.currentRepo r.repo = some c := by
      simpa [stepB, hmb] using hc
    have hmap : (stepB st r).repoAccess = addMemberB (mapAfterRepo st.repoAccess r.repo) c2 id := by
      simp [stepB, hmb]
    rw [hmap, isSome_lookup_addMemberB]
    exact invB_cur_lookup st r c h hc2

theorem invB_fold (rows : List RowB) (st : StateB) (h : InvB st) :
    InvB (rows.foldl stepB st) := by
  induction rows generalizing st with
  | nil => exact h
  | cons r rs ih => exact ih (stepB st r) (invB_step st r h)

theorem nodup_dedup_append {l : List String} {id : String} (h : l.Nodup) :
    (if l.contains id then l else l ++ [id]).Nodup := by
  cases hc : l.contains id
  · have hid : id ∉ l := by simpa using hc
    simp [List.nodup_append, h, hid]
  · simp [h]

theorem nodupMapB_mapAfterRepo (m : List (String × List String)) (cell : Cell)
    (h : NodupMapB m) : NodupMapB (mapAfterRepo m cell) := by
  cases hrv : repoCellValid cell with
  | none => simpa [mapAfterRepo, hrv] using h
  | some s =>
    intro g l hl
    simp only [mapAfterRepo, hrv] at hl
    rw [lookupMap_registerRepo] at hl
    cases hlk : lookupMap m g with
    | some lk =>
      rw [hlk] at hl
      simp at hl
      subst hl
      exact h g lk hlk
    | none =>
      rw [hlk] at hl
      by_cases hg : g = s
      · simp [hg] at hl
        subst hl
        exact List.nodup_nil
      · simp [hg] at hl

theorem nodupMapB_addMemberB (m : List (String × List String)) (c id : String)
    (h : NodupMapB m) : NodupMapB (addMemberB m c id) := by
  intro g l hl
  rw [lookupMap_addMemberB] at hl
  by_cases hg : g = c
  · rw [if_pos hg] at hl
    cases hlk : lookupMap m g with
    | none =>
      rw [hlk] at hl
      simp at hl
    | some lk =>
      rw [hlk] at hl
      simp at hl
      rw [← hl]
      have := @nodup_dedup_append lk id (h g lk hlk)
      by_cases hc : lk.contains id <;> simp_all
  · rw [if_neg hg] at hl
    exact h g l hl

theorem nodupMapB_step (st : StateB) (r : RowB) (h : NodupMapB st.repoAccess) :
    NodupMapB (stepB st r).repoAccess := by
  cases hmb : memberAddB (curAfterRepo st.currentRepo r.repo) r.githubId with
  | none =>
    have hmap : (stepB st r).repoAccess = mapAfterRepo st.repoAccess r.repo := by
      simp [stepB, hmb]
    rw [hmap]
    exact nodupMapB_mapAfterRepo _ _ h
  | some p =>
    obtain ⟨c, id⟩ := p
    have hmap : (stepB st r).repoAccess = addMemberB (mapAfterRepo st.repoAccess r.repo) c id := by
      simp [stepB, hmb]
    rw [hmap]
    exact nodupMapB_addMemberB _ c id (nodupMapB_mapAfterRepo _ _ h)

theorem nodupMapB_fold (rows : List RowB) (st : StateB) (h : NodupMapB st.repoAccess) :
    NodupMapB (rows.foldl stepB st).repoAccess := by
  induction rows generalizing st with
  | nil => exact h
  | cons r rs ih => exact ih (stepB st r) (nodupMapB_step st r h)

theorem memB_persist_step (st : StateB) (r : RowB) (g x : String)
    (h : x ∈ (lookupMap st.repoAccess g).getD []) :
    x ∈ (lookupMap (stepB st r).repoAccess g).getD [] := by
  cases hlk : lookupMap st.repoAccess g with
  | none =>
    rw [hlk] at h
    simp at h
  | some l =>
    rw [hlk] at h
    simp only [Option.getD_some] at h
    have h1 : lookupMap (mapAfterRepo st.repoAccess r.repo) g = some l := by
      cases hrv : repoCellValid r.repo with
      | none => simpa [mapAfterRepo, hrv] using hlk
      | some s =>
        simp only [mapAfterRepo, hrv]
        rw [lookupMap_registerRepo, hlk]
    cases hmb : memberAddB (curAfterRepo st.currentRepo r.repo) r.githubId with
    | none => simp [stepB, hmb, h1, h]
    | some p =>
      obtain ⟨c, id⟩ := p
      simp only [stepB, hmb]
      rw [lookupMap_addMemberB]
      by_cases hg : g = c
      · rw [if_pos hg, h1]
        simp only [Option.map_some', Option.getD_some]
        cases hc : l.contains id <;> simp [h]
      · rw [if_neg hg, h1]
        simpa using h

theorem memB_persist (rows : List RowB) (st : StateB) (g x : String)
    (h : x ∈ (lookupMap st.repoAccess g).getD []) :
    x ∈ (lookupMap (rows.foldl stepB st).repoAccess g).getD [] := by
  induction rows generalizing st with
  | nil => exact h
  | cons r rs ih => exact ih (stepB st r) (memB_persist_step st r g x h)

theorem memB_event (rows : List RowB) (st : StateB) (g x : String) (hinv : InvB st)
    (h : (g, x) ∈ eventsB st rows) :
    x ∈ (lookupMap (rows.foldl stepB st).repoAccess g).getD [] := by
  induction rows generalizing st with
  | nil => simp [eventsB] at h
  | cons r rs ih =>
    simp only [eventsB] at h
    rcases List.mem_append.mp h with h1 | h2
    · have hmb : memberAddB (curAfterRepo st.currentRepo r.repo) r.githubId = some (g, x) := by
        cases hm : memberAddB (curAfterRepo st.currentRepo r.repo) r.githubId with
        | none =>
          rw [hm] at h1
          simp at h1
        | some p =>
          rw [hm] at h1
          simp at h1
          rw [h1]
      have hcur : curAfterRepo st.currentRepo r.repo = some g := (memberAddB_inv hmb).1
      have hsome := invB_cur_lookup st r g hinv hcur
      have hx : x ∈ (lookupMap (stepB st r).repoAccess g).getD [] := by
        simp only [stepB, hmb]
        rw [lookupMap_addMemberB, if_pos rfl]
        obtain ⟨lm, hlm⟩ := Option.isSome_iff_exists.mp hsome
        rw [hlm]
        simp only [Option.map_some', Option.getD_some]
        cases hc : lm.contains x
        · simp
        · simpa using hc
      rw [List.foldl_cons]
      exact memB_persist rs (stepB st r) g x hx
    · rw [List.foldl_cons]
      exact ih (stepB st r) (invB_step st r hinv) h2

theorem foldA_memberless (rows : List RowA) (st : StateA)
    (h : ∀ r ∈ rows, r.githubId = none) :
    (rows.foldl stepA st).teams = st.teams ∧
      (rows.foldl stepA st).currentTeam =
        rows.foldl (fun c r => updateTeamA c r.team) st.currentTeam := by
  induction rows generalizing st with
  | nil => exact ⟨rfl, rfl⟩
  | cons r rs ih =>
    have hg0 : r.githubId = none := h r (List.mem_cons_self r rs)
    have hma : memberAddA (updateTeamA st.currentTeam r.team) r.githubId = none := by
      cases updateTeamA st.currentTeam r.team <;> simp [memberAddA, memberCell, hg0]
    have htail := ih (stepA st r) (fun r2 hr2 => h r2 (List.mem_cons_of_mem r hr2))
    constructor
    · rw [List.foldl_cons, htail.1]
      simp [stepA, hma]
    · rw [List.foldl_cons, htail.2, List.foldl_cons]
      have : (stepA st r).currentTeam = updateTeamA st.currentTeam r.team := by
        simp [stepA, hma]
      rw [this]

theorem foldB_groupOnly (rows : List RowB) (st : StateB) (g : String)
    (h : ∀ r ∈ rows, r.githubId = none) :
    lookupMap (rows.foldl stepB st).repoAccess g =
      match lookupMap st.repoAccess g with
      | some l => some l
      | none => if rows.any (fun r => repoCellValid r.repo == some g) then some [] else none := by
  induction rows generalizing st with
  | nil =>
    simp only [List.foldl_nil, List.any_nil]
    cases lookupMap st.repoAccess g <;> simp
  | cons r rs ih =>
    have hg0 : r.githubId = none := h r (List.mem_cons_self r rs)
    have hmb : memberAddB (curAfterRepo st.currentRepo r.repo) r.githubId = none := by
      cases curAfterRepo st.currentRepo r.repo <;> simp [memberAddB, memberCell, hg0]
    have hacc : (stepB st r).repoAccess = mapAfterRepo st.repoAccess r.repo := by
      simp [stepB, hmb]
    rw [List.foldl_cons, ih (stepB st r) (fun r2 hr2 => h r2 (List.mem_cons_of_mem r hr2)), hacc]
    cases hrv : repoCellValid r.repo with
    | none =>
      simp only [mapAfterRepo, hrv, List.any_cons]
      cases hlk : lookupMap st.repoAccess g <;> simp [hrv]
    | some s =>
      simp only [mapAfterRepo, hrv, List.any_cons]
      rw [lookupMap_registerRepo]
      cases hlk : lookupMap st.repoAccess g with
      | some l => simp
      | none =>
        by_cases hgs : g = s
        · subst hgs
          simp
        · simp [Ne.symm hgs, hgs]

theorem grantAllA_foldl (env : EnvA) (repo : String) (members : List String) (acc : List EventA) :
    members.foldl (fun a u => a ++ (add_collaborator env repo u).1) acc =
      acc ++ members.map (fun u => EventA.addCall repo u "push") := by
  induction members generalizing acc with
  | nil => simp
  | cons u us ih =>
    rw [List.foldl_cons, ih]
    simp [add_collaborator]

theorem grantAllA_events (env : EnvA) (repo : String) (members : List String) :
    grantAllA env repo members = members.map (fun u => EventA.addCall repo u "push") := by
  unfold grantAllA
  rw [grantAllA_foldl]
  simp

theorem clientName_ne_designerName (n : Nat) : clientName n ≠ designerName n := by
  intro h
  have hlen := congrArg String.length h
  rw [clientName, designerName, String.length_append, String.length_append] at hlen
  have h6 : ("Client").length = 6 := rfl
  have h8 : ("Designer").length = 8 := rfl
  omega

theorem create_repository_no422 (cr fr : Except GHError Unit) (name : String)
    (h : ∀ e, cr = .error e → e.status ≠ 422) :
    (create_repository cr fr name).1 = [.createCall name] ∧
      ∃ ho, (create_repository cr fr name).2 = .ok ho := by
  cases cr with
  | ok u => exact ⟨rfl, some name, rfl⟩
  | error e =>
    have hne : e.status ≠ 422 := h e rfl
    have hb : (e.status == 422) = false := by simpa using hne
    simp [create_repository, hb]

theorem filterMap_comp_createNameOf (repo perm : String) (members : List String) :
    (members.filterMap (createNameOf ∘ fun u => EventA.addCall repo u perm)) = [] := by
  induction members with
  | nil => rfl
  | cons u us ih =>
    rw [List.filterMap_cons]
    simp [createNameOf, ih]

theorem filterMap_createNameOf_addCalls (repo perm : String) (members : List String) :
    ((members.map (fun u => EventA.addCall repo u perm)).filterMap createNameOf) = [] := by
  rw [List.filterMap_map]
  exact filterMap_comp_createNameOf repo perm members

theorem processTeamA_no422 (env : EnvA) (n : Nat) (members : List String)
    (h : ∀ name e, env.create name = .error e → e.status ≠ 422) :
    (processTeamA env n members).2 = .ok () ∧
      (processTeamA env n members).1.filterMap createNameOf = [clientName n, designerName n] := by
  obtain ⟨hev1, ho1, hres1⟩ :=
    create_repository_no422 (env.create (clientName n)) (env.fetch (clientName n)) (clientName n)
      (fun e he => h (clientName n) e he)
  obtain ⟨hev2, ho2, hres2⟩ :=
    create_repository_no422 (env.create (designerName n)) (env.fetch (designerName n)) (designerName n)
      (fun e he => h (designerName n) e he)
  simp only [processTeamA, hres1, hres2, hev1, hev2]
  constructor
  · trivial
  · cases ho1 <;> cases ho2 <;>
      simp [grantAllA_events, List.filterMap_append, filterMap_createNameOf_addCalls,
        filterMap_comp_createNameOf, createNameOf]

theorem runTeamsA_no422 (env : EnvA) (teams : List (Nat × List String)) (ns : List Nat)
    (h : ∀ name e, env.create name = .error e → e.status ≠ 422) :
    (runTeamsA env teams ns).2 = .ok () ∧
      (runTeamsA env teams ns).1.filterMap createNameOf =
        ns.foldr (fun n acc =>
          if (lookupMap teams n).isSome then clientName n :: designerName n :: acc else acc) [] := by
  induction ns with
  | nil => exact ⟨rfl, rfl⟩
  | cons n rest ih =>
    cases hlk : lookupMap teams n with
    | none => simp [runTeamsA, hlk, ih.1, ih.2]
    | some members =>
      obtain ⟨hres, hev⟩ := processTeamA_no422 env n members h
      simp only [runTeamsA, hlk, hres, List.foldr_cons]
      constructor
      · exact ih.1
      · rw [List.filterMap_append, hev, ih.2]
        simp [hlk]

theorem exceptToBool_ok {ε α : Type} (w : α) : (Except.ok w : Except ε α).toBool = true := rfl

theorem exceptToBool_error {ε α : Type} (e : ε) : (Except.error e : Except ε α).toBool = false := rfl

theorem foldl_append_fst {β γ : Type} (L : List (List β × γ)) (acc : List β) :
    L.foldl (fun a r => a ++ r.1) acc = acc ++ (L.map (fun r => r.1)).flatten := by
  induction L generalizing acc with
  | nil => simp
  | cons p t ih => simp [ih]

theorem permQuery_mem_grant (env : EnvB) (rn u : String) :
    EventB.permQuery rn u ∈ (grant_read_access env rn u).1 := by
  unfold grant_read_access
  cases hq : env.getPerm rn u with
  | ok p =>
    by_cases hp : (p == "admin" || p == "write" || p == "read") = true <;> simp [hp]
  | error e => simp

theorem runReposB_events_member (env : EnvB) (access : List (String × List String))
    (rn : String) (users : List String) (u : String)
    (hmem : (rn, users) ∈ access) (hok : (env.getRepo rn).isOk = true) (hu : u ∈ users) :
    EventB.permQuery rn u ∈ (runReposB env access).1 := by
  induction access with
  | nil => simp at hmem
  | cons p rest ih =>
    obtain ⟨rn2, users2⟩ := p
    rcases List.mem_cons.mp hmem with heq | htail
    · injection heq with h1 h2
      subst h1
      subst h2
      cases hgr : env.getRepo rn with
      | error e =>
        rw [hgr] at hok
        simp [exceptToBool_error] at hok
      | ok w =>
        simp only [runReposB, hgr]
        apply List.mem_cons_of_mem
        apply List.mem_append_left
        rw [foldl_append_fst]
        simp only [List.nil_append]
        refine List.mem_flatten.mpr ⟨(grant_read_access env rn u).1, ?_, permQuery_mem_grant env rn u⟩
        simp only [List.map_map]
        exact List.mem_map_of_mem _ hu
    · cases hgr : env.getRepo rn2 with
      | error e =>
        simp only [runReposB, hgr]
        exact List.mem_cons_of_mem _ (ih htail)
      | ok w =>
        simp only [runReposB, hgr]
        apply List.mem_cons_of_mem
        exact List.mem_append_right _ (ih htail)

theorem runReposB_events_repo (env : EnvB) (access : List (String × List String))
    (rn : String) (users : List String) (hmem : (rn, users) ∈ access) :
    EventB.getRepoCall rn ∈ (runReposB env access).1 := by
  induction access with
  | nil => simp at hmem
  | cons p rest ih =>
    obtain ⟨rn2, users2⟩ := p
    rcases List.mem_cons.mp hmem with heq | htail
    · injection heq with h1 h2
      subst h1
      cases hgr : env.getRepo rn <;> simp [runReposB, hgr]
    · cases hgr : env.getRepo rn2 with
      | error e =>
        simp only [runReposB, hgr]
        exact List.mem_cons_of_mem _ (ih htail)
      | ok w =>
        simp only [runReposB, hgr]
        apply List.mem_cons_of_mem
        exact List.mem_append_right _ (ih htail)

theorem length_filter_three {α : Type} (l : List α) (b1 b2 : α → Bool) :
    (l.filter (fun a => b1 a && b2 a)).length + (l.filter (fun a => !b1 a)).length +
      (l.filter (fun a => b1 a && !b2 a)).length = l.length := by
  induction l with
  | nil => rfl
  | cons a t ih =>
    simp only [List.filter_cons]
    cases h1 : b1 a <;> cases h2 : b2 a <;> simp [List.length_cons] <;> omega

theorem runReposB_spec (env : EnvB) (access : List (String × List String)) :
    (runReposB env access).2.1 =
      (access.filter (fun p => (env.getRepo p.1).isOk
        && p.2.all (fun u => (grant_read_access env p.1 u).2))).length ∧
    (runReposB env access).2.2 =
      (access.filter (fun p => !(env.getRepo p.1).isOk)).map (fun p => p.1) := by
  induction access with
  | nil => exact ⟨rfl, rfl⟩
  | cons p rest ih =>
    obtain ⟨rn, users⟩ := p
    cases hgr : env.getRepo rn with
    | error e =>
      constructor
      · simp [runReposB, hgr, List.filter_cons, exceptToBool_error, ih.1]
      · simp [runReposB, hgr, List.filter_cons, exceptToBool_error, ih.2]
    | ok w =>
      have hcnt : ((users.map (fun u => grant_read_access env rn u)).filter
          (fun r => r.2)).length =
          (users.filter (fun u => (grant_read_access env rn u).2)).length := by
        rw [List.filter_map, List.length_map]
        rfl
      by_cases hall : ∀ u ∈ users, (grant_read_access env rn u).2 = true
      · have hlen : (users.filter (fun u => (grant_read_access env rn u).2)).length
            = users.length := List.filter_length_eq_length.mpr hall
        have hallb : users.all (fun u => (grant_read_access env rn u).2) = true := by
          simpa [List.all_eq_true] using hall
        constructor
        · simp [runReposB, hgr, List.filter_cons, exceptToBool_ok, hallb, hcnt, hlen, ih.1]
          omega
        · simp [runReposB, hgr, List.filter_cons, exceptToBool_ok, ih.2]
      · have hne : ¬ ((users.filter (fun u => (grant_read_access env rn u).2)).length
            = users.length) := by
          intro hl
          exact hall (List.filter_length_eq_length.mp hl)
        have hallb : users.all (fun u => (grant_read_access env rn u).2) = false := by
          rw [Bool.eq_false_iff]
          intro hcontra
          exact hall (List.all_eq_true.mp hcontra)
        constructor
        · simp [runReposB, hgr, List.filter_cons, exceptToBool_ok, hallb, hcnt, hne, ih.1]
        · simp [runReposB, hgr, List.filter_cons, exceptToBool_ok, ih.2]

theorem stepA_currentTeam (st : StateA) (r : RowA) :
    (stepA st r).currentTeam = updateTeamA st.currentTeam r.team := by
  cases h : memberAddA (updateTeamA st.currentTeam r.team) r.githubId with
  | none => simp [stepA, h]
  | some p =>
    obtain ⟨n, id⟩ := p
    simp [stepA, h]

theorem create_repository_events (cr fr : Except GHError Unit) (name : String) :
    (create_repository cr fr name).1 = [.createCall name] ∨
      (create_repository cr fr name).1 = [.createCall name, .fetchCall name] := by
  cases cr with
  | ok w => left; rfl
  | error e =>
    by_cases h : (e.status == 422) = true
    · right
      cases fr <;> simp [create_repository, h]
    · left
      simp [create_repository, h]

theorem create_repository_no_addCall (cr fr : Except GHError Unit) (name : String) :
    ∀ ev ∈ (create_repository cr fr name).1, ∀ rp u p, ev ≠ EventA.addCall rp u p := by
  rcases create_repository_events cr fr name with h | h <;> rw [h] <;>
    intro ev hev rp u p <;> simp at hev
  · subst hev
    simp
  · rcases hev with hev | hev <;> subst hev <;> simp

theorem createCall_mem_create_repository (cr fr : Except GHError Unit) (nm : String) :
    EventA.createCall nm ∈ (create_repository cr fr nm).1 := by
  rcases create_repository_events cr fr nm with h | h <;> rw [h] <;> simp

theorem create_repository_handle (cr fr : Except GHError Unit) (nm : String) :
    (create_repository cr fr nm).2 = .ok (some nm) ∨ (create_repository cr fr nm).2 = .ok none ∨
      ∃ e2, (create_repository cr fr nm).2 = .error e2 := by
  cases cr with
  | ok w => left; rfl
  | error e =>
    by_cases h : (e.status == 422) = true
    · cases fr with
      | ok w => left; simp [create_repository, h]
      | error e2 =>
        right; right
        exact ⟨e2, by simp [create_repository, h]⟩
    · right; left
      simp [create_repository, h]

theorem processTeamA_addOutcome_irrel (create fetch : String → Except GHError Unit)
    (a1 a2 : String → String → Except GHError Unit) (n : Nat) (members : List String) :
    processTeamA ⟨create, fetch, a1⟩ n members = processTeamA ⟨create, fetch, a2⟩ n members := by
  simp only [processTeamA]
  cases (create_repository (create (clientName n)) (fetch (clientName n)) (clientName n)).2 with
  | error e => rfl
  | ok h1 =>
    cases (create_repository (create (designerName n)) (fetch (designerName n)) (designerName n)).2 with
    | error e => cases h1 <;> simp [grantAllA_events]
    | ok h2 => cases h1 <;> cases h2 <;> simp [grantAllA_events]

theorem runTeamsA_addOutcome_irrel (create fetch : String → Except GHError Unit)
    (a1 a2 : String → String → Except GHError Unit)
    (teams : List (Nat × List String)) (ns : List Nat) :
    runTeamsA ⟨create, fetch, a1⟩ teams ns = runTeamsA ⟨create, fetch, a2⟩ teams ns := by
  induction ns with
  | nil => rfl
  | cons n rest ih =>
    cases hlk : lookupMap teams n with
    | none =>
      simp only [runTeamsA, hlk]
      exact ih
    | some members =>
      simp only [runTeamsA, hlk]
      rw [processTeamA_addOutcome_irrel create fetch a1 a2 n members, ih]

theorem lookup_zero_foldA (rows : List RowA) (st : StateA)
    (h : lookupMap st.teams 0 = none) :
    lookupMap (rows.foldl stepA st).teams 0 = none := by
  induction rows generalizing st with
  | nil => exact h
  | cons r rs ih =>
    rw [List.foldl_cons]
    apply ih
    cases hma : memberAddA (updateTeamA st.currentTeam r.team) r.githubId with
    | none => simpa [stepA, hma] using h
    | some p =>
      obtain ⟨n, id⟩ := p
      have hn : n ≠ 0 := (memberAddA_inv hma).2.1
      simp only [stepA, hma]
      rw [lookupMap_appendMember]
      simp [Ne.symm hn, h, hn]

/-- C1: Carry-forward statefulness of both parsers: for every sequence of input
rows, a member identifier occurring only in rows before any row that sets the
current group (team for Pipeline A, repository for Pipeline B) does not appear
in any group's member list of the returned mapping. -/
theorem spec_C1_carry_forward (rowsA : List RowA) (rowsB : List RowB)
    (k j : Nat) (m : String) :
    ((∀ r ∈ rowsA.take k, extractTeamA r.team = none) →
     (∀ r ∈ rowsA.drop k, memberCell r.githubId ≠ some m) →
     ∀ g l, lookupMap (read_teams_from_excel rowsA) g = some l → m ∉ l)
    ∧
    ((∀ r ∈ rowsB.take j, repoCellValid r.repo = none) →
     (∀ r ∈ rowsB.drop j, memberCell r.githubId ≠ some m) →
     ∀ g l, lookupMap (read_access_list_from_excel rowsB) g = some l → m ∉ l) := by
  constructor
  · intro h1 h2 g l hl hm
    rw [read_teams_from_excel] at hl
    have hl2 : lookupMap (((rowsA.take k ++ rowsA.drop k)).foldl stepA initA).teams g
        = some l := by
      rw [List.take_append_drop]
      exact hl
    rw [List.foldl_append, foldA_no_group (rowsA.take k) h1] at hl2
    rcases memA_prov (rowsA.drop k) initA g l m hl2 hm with ⟨l0, hl0, _⟩ | ⟨r, hr, hmc⟩
    · simp [initA, lookupMap] at hl0
    · exact h2 r hr hmc
  · intro h1 h2 g l hl hm
    rw [read_access_list_from_excel] at hl
    have hl2 : lookupMap (((rowsB.take j ++ rowsB.drop j)).foldl stepB initB).repoAccess g
        = some l := by
      rw [List.take_append_drop]
      exact hl
    rw [List.foldl_append, foldB_no_group (rowsB.take j) h1] at hl2
    rcases memB_prov (rowsB.drop j) initB g l m hl2 hm with ⟨l0, hl0, _⟩ | ⟨r, hr, hmc⟩
    · simp [initB, lookupMap] at hl0
    · exact h2 r hr hmc

/-- Witness for C1: a member row preceding every group row is dropped by both
parsers on a concrete roster. -/
theorem spec_C1_carry_forward_witness :
    (¬ ∃ l, lookupMap (read_teams_from_excel
        [{ team := none, githubId := some "orphan" },
         { team := some "Team 1", githubId := some "bob" }]) 1 = some l ∧ "orphan" ∈ l)
    ∧ (¬ ∃ l, lookupMap (read_access_list_from_excel
        [{ repo := none, githubId := some "orphan" },
         { repo := some "R1", githubId := some "bob" }]) "R1" = some l ∧ "orphan" ∈ l) := by
  constructor
  · rintro ⟨l, hl, hm⟩
    exact (spec_C1_carry_forward
        [{ team := none, githubId := some "orphan" },
         { team := some "Team 1", githubId := some "bob" }] [] 1 0 "orphan").1
      (by decide) (by decide) 1 l hl hm
  · rintro ⟨l, hl, hm⟩
    exact (spec_C1_carry_forward []
        [{ repo := none, githubId := some "orphan" },
         { repo := some "R1", githubId := some "bob" }] 0 1 "orphan").2
      (by decide) (by decide) "R1" l hl hm

/-- C2: Pipeline A team-number extraction: a group cell whose text contains the
token "team" (case-insensitive) sets currentGroup to the integer formed by the
first run of digits after that token; "Team 3- B215" yields 3, "team12" yields
12, and "Team" (no digits) leaves currentGroup unchanged. -/
theorem spec_C2_team_extraction (cur : Option Nat) (tm : List (Nat × List String)) :
    (stepA ⟨cur, tm⟩ ⟨some "Team 3- B215", none⟩).currentTeam = some 3
    ∧ (stepA ⟨cur, tm⟩ ⟨some "team12", none⟩).currentTeam = some 12
    ∧ (stepA ⟨cur, tm⟩ ⟨some "Team", none⟩).currentTeam = cur
    ∧ (∀ s n, containsSeq ("team".data) ((pyLower (pyStrip s)).data) = true →
        findTeamNum (pyStrip s).data = some n →
        (stepA ⟨cur, tm⟩ ⟨some s, none⟩).currentTeam = some n) := by
  refine ⟨?_, ?_, ?_, ?_⟩
  · rw [stepA_currentTeam]
    have h : extractTeamA (some "Team 3- B215") = some 3 := by decide
    simp [updateTeamA, h]
  · rw [stepA_currentTeam]
    have h : extractTeamA (some "team12") = some 12 := by decide
    simp [updateTeamA, h]
  · rw [stepA_currentTeam]
    have h : extractTeamA (some "Team") = none := by decide
    simp [updateTeamA, h]
  · intro s n hcontains hfind
    rw [stepA_currentTeam]
    simp [updateTeamA, extractTeamA, hcontains, hfind]

/-- Witness for C2 at a concrete state and a concrete further input. -/
theorem spec_C2_team_extraction_witness :
    (stepA ⟨none, []⟩ ⟨some "Team 3- B215", none⟩).currentTeam = some 3
    ∧ (stepA ⟨some 9, []⟩ ⟨some " team 42 x", none⟩).currentTeam = some 42 := by
  constructor
  · exact (spec_C2_team_extraction none []).1
  · exact (spec_C2_team_extraction (some 9) []).2.2.2 " team 42 x" 42 (by decide) (by decide)

/-- C10: because `current_team` is tested for Python truthiness rather than for
being set, a team number 0 gates all following member rows until a nonzero team
appears, and the Pipeline A mapping never contains the key 0. -/
theorem spec_C10_team_zero (rows : List RowA) :
    lookupMap (read_teams_from_excel rows) 0 = none
    ∧ read_teams_from_excel
        [{ team := some "Team 0", githubId := none },
         { team := none, githubId := some "alice" },
         { team := some "Team 2", githubId := none },
         { team := none, githubId := some "bob" }]
      = [(2, ["bob"])] := by
  constructor
  · exact lookup_zero_foldA rows initA rfl
  · decide

/-- C4 counterexample: a Pipeline A row with a valid team cell and no member
cell does update currentGroup (to 1) yet registers nothing, so the returned
mapping is empty rather than mapping the group to an empty list. -/
theorem spec_C4_counterexample :
    read_teams_from_excel [{ team := some "Team 1", githubId := none }] = []
    ∧ (List.foldl stepA initA [{ team := some "Team 1", githubId := none }]).currentTeam
      = some 1 := by
  constructor <;> decide

/-- C4 amended: a valid group cell with a missing member cell still updates the
carried group in both pipelines, but only Pipeline B registers the group with an
empty member list; Pipeline A creates lists lazily on the first member, so a
member-free roster yields an empty Pipeline A mapping, while Pipeline B maps
exactly the named repositories to empty lists. -/
theorem spec_C4_amended (rowsA : List RowA) (rowsB : List RowB)
    (hA : ∀ r ∈ rowsA, r.githubId = none) (hB : ∀ r ∈ rowsB, r.githubId = none) :
    read_teams_from_excel rowsA = []
    ∧ (rowsA.foldl stepA initA).currentTeam =
        rowsA.foldl (fun c r => updateTeamA c r.team) none
    ∧ ∀ g, lookupMap (read_access_list_from_excel rowsB) g =
        (if rowsB.any (fun r => repoCellValid r.repo == some g) then some [] else none) := by
  refine ⟨?_, ?_, ?_⟩
  · rw [read_teams_from_excel, (foldA_memberless rowsA initA hA).1]
    rfl
  · exact (foldA_memberless rowsA initA hA).2
  · intro g
    rw [read_access_list_from_excel, foldB_groupOnly rowsB initB g hB]
    rfl

/-- Witness for C4 amended on concrete member-free rosters. -/
theorem spec_C4_amended_witness :
    read_teams_from_excel [{ team := some "Team 1", githubId := none }] = []
    ∧ lookupMap (read_access_list_from_excel
        [{ repo := some "R1", githubId := none }]) "R1" = some [] := by
  constructor
  · exact (spec_C4_amended [{ team := some "Team 1", githubId := none }] []
      (by decide) (by decide)).1
  · have h := (spec_C4_amended [] [{ repo := some "R1", githubId := none }]
      (by decide) (by decide)).2.2 "R1"
    rw [h]
    decide

/-- C3: De-duplication asymmetry: when the same normalized member identifier is
contributed twice to the same group, the Pipeline B list for that group holds
exactly one occurrence while the Pipeline A list holds two. -/
theorem spec_C3_dedup_asymmetry (rowsA : List RowA) (rowsB : List RowB)
    (n : Nat) (g x : String) :
    ((eventsA initA rowsA).count (n, x) = 2 →
      ∃ l, lookupMap (read_teams_from_excel rowsA) n = some l ∧ l.count x = 2)
    ∧ ((eventsB initB rowsB).count (g, x) = 2 →
      ∃ l, lookupMap (read_access_list_from_excel rowsB) g = some l ∧ l.count x = 1) := by
  constructor
  · intro h2
    have hc := countIn_foldA rowsA initA n x
    rw [h2] at hc
    have h0 : countIn initA.teams n x = 0 := rfl
    rw [h0] at hc
    unfold countIn at hc
    cases hl : lookupMap (rowsA.foldl stepA initA).teams n with
    | none =>
      rw [hl] at hc
      simp at hc
    | some l =>
      rw [hl] at hc
      refine ⟨l, ?_, by simpa using hc⟩
      rw [read_teams_from_excel]
      exact hl
  · intro h2
    have hmem : (g, x) ∈ eventsB initB rowsB := by
      have hpos : 0 < (eventsB initB rowsB).count (g, x) := by omega
      exact List.count_pos_iff.mp hpos
    have hinv : InvB initB := by
      intro c hc
      simp [initB] at hc
    have hx := memB_event rowsB initB g x hinv hmem
    cases hl : lookupMap (rowsB.foldl stepB initB).repoAccess g with
    | none =>
      rw [hl] at hx
      simp at hx
    | some l =>
      rw [hl] at hx
      simp only [Option.getD_some] at hx
      have hnd : l.Nodup := by
        refine nodupMapB_fold rowsB initB ?_ g l hl
        intro g2 l2 hl2
        simp [initB, lookupMap] at hl2
      refine ⟨l, ?_, ?_⟩
      · rw [read_access_list_from_excel]
        exact hl
      · exact List.count_eq_one_of_mem hnd hx

/-- Witness for C3: a member id appearing twice under one group on concrete
rosters, kept twice by Pipeline A and once by Pipeline B. -/
theorem spec_C3_dedup_asymmetry_witness :
    (∃ l, lookupMap (read_teams_from_excel
        [{ team := some "Team 1", githubId := none },
         { team := none, githubId := some "alice" },
         { team := none, githubId := some "alice" }]) 1 = some l ∧ l.count "alice" = 2)
    ∧ (∃ l, lookupMap (read_access_list_from_excel
        [{ repo := some "R1", githubId := none },
         { repo := none, githubId := some "alice" },
         { repo := none, githubId := some "alice" }]) "R1" = some l ∧ l.count "alice" = 1) := by
  constructor
  · exact (spec_C3_dedup_asymmetry
        [{ team := some "Team 1", githubId := none },
         { team := none, githubId := some "alice" },
         { team := none, githubId := some "alice" }] [] 1 "R1" "alice").1 (by decide)
  · exact (spec_C3_dedup_asymmetry []
        [{ repo := some "R1", githubId := none },
         { repo := none, githubId := some "alice" },
         { repo := none, githubId := some "alice" }] 1 "R1" "alice").2 (by decide)

/-- C5: Resource resolution is create-or-fetch: a 422 already-exists conflict on
creation leads to fetching and returning the existing repository; any other
creation failure returns no handle, every member grant for that resource is
skipped, and subsequent resources are still processed. -/
theorem spec_C5_create_or_fetch (env : EnvA) (teams : List (Nat × List String))
    (ns : List Nat) (n : Nat) (members : List String) (name : String)
    (e : GHError) (fr : Except GHError Unit) :
    (e.status = 422 → fr = .ok () →
      create_repository (.error e) fr name
        = ([.createCall name, .fetchCall name], .ok (some name)))
    ∧ (e.status ≠ 422 →
      create_repository (.error e) fr name = ([.createCall name], .ok none))
    ∧ (env.create (clientName n) = .error e → e.status ≠ 422 →
      ((∀ ev ∈ (processTeamA env n members).1, ∀ u p, ev ≠ EventA.addCall (clientName n) u p)
        ∧ EventA.createCall (designerName n) ∈ (processTeamA env n members).1))
    ∧ ((∀ nm e2, env.create nm = .error e2 → e2.status ≠ 422) →
      ((runTeamsA env teams ns).2 = .ok ()
        ∧ (runTeamsA env teams ns).1.filterMap createNameOf =
            ns.foldr (fun k acc =>
              if (lookupMap teams k).isSome then clientName k :: designerName k :: acc
              else acc) [])) := by
  refine ⟨?_, ?_, ?_, ?_⟩
  · intro h422 hfr
    have hb : (e.status == 422) = true := by simpa using h422
    simp [create_repository, hb, hfr]
  · intro hne
    have hb : (e.status == 422) = false := by simpa using hne
    simp [create_repository, hb]
  · intro hce hne
    have hb : (e.status == 422) = false := by simpa using hne
    have hc1 : create_repository (env.create (clientName n)) (env.fetch (clientName n))
        (clientName n) = ([.createCall (clientName n)], .ok none) := by
      simp [create_repository, hce, hb]
    have hPT : (processTeamA env n members).1 =
        [EventA.createCall (clientName n)] ++
          (create_repository (env.create (designerName n)) (env.fetch (designerName n))
            (designerName n)).1 ++
          (match (create_repository (env.create (designerName n)) (env.fetch (designerName n))
              (designerName n)).2 with
            | .ok (some repo) => grantAllA env repo members
            | _ => []) := by
      simp only [processTeamA, hc1]
      cases hd2 : (create_repository (env.create (designerName n)) (env.fetch (designerName n))
          (designerName n)).2 with
      | error e2 => simp [hd2]
      | ok h2 => cases h2 <;> simp [hd2]
    constructor
    · intro ev hev u p
      rw [hPT] at hev
      rcases List.mem_append.mp hev with hev1 | hev2
      · rcases List.mem_append.mp hev1 with hev0 | hevd
        · simp at hev0
          subst hev0
          simp
        · exact create_repository_no_addCall _ _ _ ev hevd (clientName n) u p
      · rcases create_repository_handle (env.create (designerName n))
            (env.fetch (designerName n)) (designerName n) with hh | hh | ⟨e2, hh⟩
        · rw [hh] at hev2
          simp only at hev2
          rw [grantAllA_events] at hev2
          rcases List.mem_map.mp hev2 with ⟨u2, _, hu2⟩
          subst hu2
          intro hcontra
          have : designerName n = clientName n := by
            injection hcontra
          exact clientName_ne_designerName n this.symm
        · rw [hh] at hev2
          simp at hev2
        · rw [hh] at hev2
          simp at hev2
    · rw [hPT]
      apply List.mem_append_left
      apply List.mem_append_right
      exact createCall_mem_create_repository _ _ _
  · intro hno422
    exact runTeamsA_no422 env teams ns hno422

/-- Witness for C5 on concrete environments: a 422 conflict is recovered by
fetch, a 500 failure yields no handle, and a run whose creations all fail with
500 still completes with every create call issued. -/
theorem spec_C5_create_or_fetch_witness :
    create_repository (.error { status := 422, rendered := "exists" }) (.ok ()) "R"
      = ([.createCall "R", .fetchCall "R"], .ok (some "R"))
    ∧ create_repository (.error { status := 500, rendered := "boom" }) (.ok ()) "R"
      = ([.createCall "R"], .ok none)
    ∧ (runTeamsA envCreateFails [(1, ["alice"])] [1, 2]).2 = .ok ()
    ∧ (runTeamsA envCreateFails [(1, ["alice"])] [1, 2]).1.filterMap createNameOf
      = ["Client1", "Designer1"] := by
  have hno422 : ∀ nm e2, envCreateFails.create nm = .error e2 → e2.status ≠ 422 := by
    intro nm e2 he
    have : e2 = { status := 500, rendered := "boom" } := by
      simpa [envCreateFails] using he.symm
    rw [this]
    decide
  refine ⟨?_, ?_, ?_, ?_⟩
  · exact (spec_C5_create_or_fetch envCreateFails [] [] 0 [] "R"
      { status := 422, rendered := "exists" } (.ok ())).1 rfl rfl
  · exact (spec_C5_create_or_fetch envCreateFails [] [] 0 [] "R"
      { status := 500, rendered := "boom" } (.ok ())).2.1 (by decide)
  · exact ((spec_C5_create_or_fetch envCreateFails [(1, ["alice"])] [1, 2] 0 [] "R"
      { status := 500, rendered := "boom" } (.ok ())).2.2.2 hno422).1
  · have h := ((spec_C5_create_or_fetch envCreateFails [(1, ["alice"])] [1, 2] 0 [] "R"
      { status := 500, rendered := "boom" } (.ok ())).2.2.2 hno422).2
    rw [h]
    decide

/-- C6: Ensure-at-least skip rule: an existing read, write, or admin permission
makes the grant a no-op reported as success; a failed query or any other
permission level triggers exactly one add-collaborator call with pull
permission. -/
theorem spec_C6_ensure_at_least (env : EnvB) (repo u : String) :
    (∀ p, env.getPerm repo u = .ok p → (p = "admin" ∨ p = "write" ∨ p = "read") →
      grant_read_access env repo u = ([.permQuery repo u], true))
    ∧ (∀ p, env.getPerm repo u = .ok p → ¬(p = "admin" ∨ p = "write" ∨ p = "read") →
      (grant_read_access env repo u).1.filter isAddEvent = [EventB.addCall repo u "pull"])
    ∧ (∀ e, env.getPerm repo u = .error e →
      (grant_read_access env repo u).1.filter isAddEvent = [EventB.addCall repo u "pull"]) := by
  refine ⟨?_, ?_, ?_⟩
  · intro p hp hq
    have hb : (p == "admin" || p == "write" || p == "read") = true := by
      rcases hq with h | h | h <;> simp [h]
    simp [grant_read_access, hp, hb]
  · intro p hp hq
    obtain ⟨h1, h23⟩ := not_or.mp hq
    obtain ⟨h2, h3⟩ := not_or.mp h23
    have hb : (p == "admin" || p == "write" || p == "read") = false := by
      simp [h1, h2, h3]
    simp [grant_read_access, hp, hb, isAddEvent]
  · intro e he
    simp [grant_read_access, he, isAddEvent]

/-- Witness for C6: a member with read access is skipped with success, a member
with no qualifying access gets exactly one pull-permission add call. -/
theorem spec_C6_ensure_at_least_witness :
    grant_read_access envUnfetchable "R" "alice" = ([.permQuery "R" "alice"], true)
    ∧ (grant_read_access envSkipless "R" "alice").1.filter isAddEvent
      = [EventB.addCall "R" "alice" "pull"] := by
  constructor
  · exact (spec_C6_ensure_at_least envUnfetchable "R" "alice").1 "read" rfl
      (Or.inr (Or.inr rfl))
  · exact (spec_C6_ensure_at_least envSkipless "R" "alice").2.1 "none" rfl (by decide)

/-- C7 counterexample: in the assign (push) variant, a 404 member-not-found
failure and a 500 failure with the same platform-rendered text produce the very
same printed message, so the not-found case is not reported distinctly. -/
theorem spec_C7_counterexample :
    addFailMsgA "alice" { status := 404, rendered := "E" }
      = addFailMsgA "alice" { status := 500, rendered := "E" }
    ∧ (404 : Nat) ≠ 500 := ⟨rfl, by decide⟩

/-- C7 amended: the ensure-at-least variant reports member-not-found with a
dedicated message distinct from every other failure message; the assign variant
uses a single template whose text depends only on the platform's own rendering
of the error; in both drivers a member failure aborts nothing: Pipeline A's run
is unchanged by add outcomes, and Pipeline B still queries every member of every
fetched repository and fetches every listed repository. -/
theorem spec_C7_amended :
    (∀ (u : String) (e e2 : GHError), e.status = 404 → e2.status ≠ 404 →
      grantFailMsgB u e ≠ grantFailMsgB u e2)
    ∧ (∀ (u : String) (e e2 : GHError), e.rendered = e2.rendered →
      addFailMsgA u e = addFailMsgA u e2)
    ∧ (∀ (create fetch : String → Except GHError Unit)
        (a1 a2 : String → String → Except GHError Unit)
        (teams : List (Nat × List String)) (ns : List Nat),
      runTeamsA ⟨create, fetch, a1⟩ teams ns = runTeamsA ⟨create, fetch, a2⟩ teams ns)
    ∧ (∀ (env : EnvB) (access : List (String × List String)) (rn : String)
        (users : List String) (u : String), (rn, users) ∈ access →
        (env.getRepo rn).isOk = true → u ∈ users →
        EventB.permQuery rn u ∈ (mainB env access).1)
    ∧ (∀ (env : EnvB) (access : List (String × List String)) (rn : String)
        (users : List String), (rn, users) ∈ access →
        EventB.getRepoCall rn ∈ (mainB env access).1) := by
  refine ⟨?_, ?_, ?_, ?_, ?_⟩
  · intro u e e2 h404 hother heq
    have h1 : grantFailMsgB u e = "  ✗ User " ++ u ++ " not found on GitHub" := by
      have hb : (e.status == 404) = true := by simpa using h404
      simp [grantFailMsgB, hb]
    have h2 : grantFailMsgB u e2
        = "  ✗ Error granting access to " ++ u ++ ": " ++ e2.rendered := by
      have hb : (e2.status == 404) = false := by simpa using hother
      simp [grantFailMsgB, hb]
    rw [h1, h2] at heq
    have hlen := congrArg String.length heq
    simp only [String.length_append] at hlen
    have ha : ("  ✗ User ").length = 9 := rfl
    have hb2 : (" not found on GitHub").length = 20 := rfl
    have hc : ("  ✗ Error granting access to ").length = 29 := rfl
    have hd : (": ").length = 2 := rfl
    omega
  · intro u e e2 h
    simp [addFailMsgA, h]
  · intro create fetch a1 a2 teams ns
    exact runTeamsA_addOutcome_irrel create fetch a1 a2 teams ns
  · intro env access rn users u hmem hok hu
    exact runReposB_events_member env access rn users u hmem hok hu
  · intro env access rn users hmem
    exact runReposB_events_repo env access rn users hmem

/-- Witness for C7 amended on concrete errors, members, and repositories. -/
theorem spec_C7_amended_witness :
    grantFailMsgB "alice" { status := 404, rendered := "E" }
      ≠ grantFailMsgB "alice" { status := 500, rendered := "E" }
    ∧ EventB.permQuery "R" "alice" ∈ (mainB envSkipless [("R", ["alice"])]).1
    ∧ EventB.getRepoCall "R" ∈ (mainB envUnfetchable [("R", ["alice"])]).1 := by
  refine ⟨?_, ?_, ?_⟩
  · exact spec_C7_amended.1 "alice" { status := 404, rendered := "E" }
      { status := 500, rendered := "E" } rfl (by decide)
  · exact spec_C7_amended.2.2.2.1 envSkipless [("R", ["alice"])] "R" ["alice"] "alice"
      (by decide) rfl (by decide)
  · exact spec_C7_amended.2.2.2.2 envUnfetchable [("R", ["alice"])] "R" ["alice"] (by decide)

/-- C8: End-to-end Pipeline A scenario: roster mapping team 1 to alice and bob,
one configured team, no creation failures: the run issues exactly two create
calls named Client1 and Designer1 and exactly four push add-collaborator calls. -/
theorem spec_C8_end_to_end (env : EnvA)
    (h1 : env.create (clientName 1) = .ok ()) (h2 : env.create (designerName 1) = .ok ()) :
    (mainA env [(1, ["alice", "bob"])] 1).1 =
      [EventA.createCall "Client1",
       EventA.addCall "Client1" "alice" "push", EventA.addCall "Client1" "bob" "push",
       EventA.createCall "Designer1",
       EventA.addCall "Designer1" "alice" "push", EventA.addCall "Designer1" "bob" "push"]
    ∧ (mainA env [(1, ["alice", "bob"])] 1).1.filterMap createNameOf
      = ["Client1", "Designer1"]
    ∧ ((mainA env [(1, ["alice", "bob"])] 1).1.filter isPushAdd).length = 4 := by
  have hcl : clientName 1 = "Client1" := rfl
  have hds : designerName 1 = "Designer1" := rfl
  have hc1 : create_repository (env.create (clientName 1)) (env.fetch (clientName 1))
      (clientName 1) = ([.createCall (clientName 1)], .ok (some (clientName 1))) := by
    rw [h1]
    rfl
  have hc2 : create_repository (env.create (designerName 1)) (env.fetch (designerName 1))
      (designerName 1) = ([.createCall (designerName 1)], .ok (some (designerName 1))) := by
    rw [h2]
    rfl
  have hrange : List.range' 1 1 = [1] := rfl
  have hlk : lookupMap [(1, ["alice", "bob"])] (1 : Nat) = some ["alice", "bob"] := rfl
  have hm : (mainA env [(1, ["alice", "bob"])] 1).1 =
      [EventA.createCall "Client1",
       EventA.addCall "Client1" "alice" "push", EventA.addCall "Client1" "bob" "push",
       EventA.createCall "Designer1",
       EventA.addCall "Designer1" "alice" "push", EventA.addCall "Designer1" "bob" "push"] := by
    simp only [mainA, hrange, runTeamsA, hlk, processTeamA, hc1, hc2]
    simp [grantAllA_events, hcl, hds]
  refine ⟨hm, ?_, ?_⟩
  · rw [hm]
    decide
  · rw [hm]
    decide

/-- Witness for C8: the scenario evaluated in the all-success environment. -/
theorem spec_C8_end_to_end_witness :
    (mainA envAllOk [(1, ["alice", "bob"])] 1).1.filterMap createNameOf
      = ["Client1", "Designer1"]
    ∧ ((mainA envAllOk [(1, ["alice", "bob"])] 1).1.filter isPushAdd).length = 4 :=
  ⟨(spec_C8_end_to_end envAllOk rfl rfl).2.1, (spec_C8_end_to_end envAllOk rfl rfl).2.2⟩

/-- C9 counterexample: with one listed repository that cannot be fetched, every
member grant evaluation would report success, yet the run counts the resource as
failed and not as fully succeeded, refuting the stated biconditional. -/
theorem spec_C9_counterexample :
    (grant_read_access envUnfetchable "R" "alice").2 = true
    ∧ (mainB envUnfetchable [("R", ["alice"])]).2
      = { total := 1, successful := 0, failedRepos := ["R"] } := ⟨rfl, rfl⟩

/-- C9 amended: the Pipeline B summary reports the count of resources processed,
the count of resources fully succeeded (fetched and with every member grant
reporting success), and the list of resources that failed to fetch; the count of
fetched resources with partial member failures is the remainder of the total. -/
theorem spec_C9_amended (env : EnvB) (access : List (String × List String)) :
    (mainB env access).2.total = access.length
    ∧ (mainB env access).2.successful =
        (access.filter (fun p => (env.getRepo p.1).isOk
          && p.2.all (fun u => (grant_read_access env p.1 u).2))).length
    ∧ (mainB env access).2.failedRepos =
        (access.filter (fun p => !(env.getRepo p.1).isOk)).map (fun p => p.1)
    ∧ access.length =
        (mainB env access).2.successful + (mainB env access).2.failedRepos.length
          + (access.filter (fun p => (env.getRepo p.1).isOk
              && !(p.2.all (fun u => (grant_read_access env p.1 u).2)))).length := by
  obtain ⟨hs, hf⟩ := runReposB_spec env access
  have h3 := length_filter_three access (fun p => (env.getRepo p.1).isOk)
    (fun p => p.2.all (fun u => (grant_read_access env p.1 u).2))
  refine ⟨rfl, hs, hf, ?_⟩
  have hm1 : (mainB env access).2.successful = (runReposB env access).2.1 := rfl
  have hm2 : (mainB env access).2.failedRepos = (runReposB env access).2.2 := rfl
  rw [hm1, hm2, hs, hf, List.length_map]
  omega
